import Mathlib

/-!
Verification of the Hubbard-model Monte Carlo engine of `hubbard.py`.

The lattice is the numpy array `lattice[spin, x, y]` modelled as a total
function on triples (cells outside the allocated `(2, size, size)` block are
zero and never touched).  Random draws are passed to each operation
explicitly: `simulate_step` receives the `np.random.randint` site index, the
`random.random()` field draw, the `random.choice` index and the
`random.random()` acceptance draw, and additionally reports which of those
calls its control path actually made (`consumed`) and whether the
delta-energy block ran (`energyEvals`), mirroring the source's control flow
including Python's short-circuit `or`.
-/

/-- An occupation grid: value of `lattice[spin, x, y]` (numpy `dtype=int`). -/
abbrev Grid := ℕ × ℕ × ℕ → ℕ

/-- The assignment `lattice[spin, x, y] = v`. -/
def setCell (L : Grid) (s x y v : ℕ) : Grid :=
  fun p => if p = (s, x, y) then v else L p

/-- The mutable fields of the `Hubbard` object (hubbard.py lines 14-24 plus
the `total_electrons` counter created by `reset_pairing_counters`). -/
structure Hubbard where
  size : ℕ
  u : ℚ
  t : ℚ
  num_electrons : ℕ
  electric_field_strength : ℚ
  lattice : Option Grid
  total_paired : ℤ
  pairing_events : ℕ
  unpairing_events : ℕ
  total_electrons : ℕ

/-- `Hubbard.__init__` (hubbard.py lines 5-27): field assignments.  The two
global-RNG seeding calls have no per-object state; they are modelled by
`seedGlobals` on the process state below. -/
def mkHubbard (size : ℕ) (u t : ℚ) (num_electrons : ℕ) : Hubbard :=
  { size := size, u := u, t := t, num_electrons := num_electrons,
    electric_field_strength := 0, lattice := none,
    total_paired := 0, pairing_events := 0, unpairing_events := 0,
    total_electrons := 0 }

/-- Number of doubly occupied sites: both spin layers hold a `1`. -/
def pairedCount (L : Grid) (N : ℕ) : ℤ :=
  ∑ p ∈ Finset.range N ×ˢ Finset.range N,
    (if L (0, p.1, p.2) = 1 ∧ L (1, p.1, p.2) = 1 then 1 else 0)

/-- Number of cells holding a `1` over the allocated `(2, N, N)` block. -/
def occupiedCount (L : Grid) (N : ℕ) : ℕ :=
  ∑ q ∈ Finset.range 2 ×ˢ Finset.range N ×ˢ Finset.range N,
    (if L q = 1 then 1 else 0)

/-- The `total_paired` value accumulated by the scan of
`reset_pairing_counters` (hubbard.py lines 94-98): `+2` per site where both
layers hold a `1`. -/
def scanPaired (L : Grid) (N : ℕ) : ℤ :=
  ∑ x ∈ Finset.range N, ∑ y ∈ Finset.range N,
    (if L (0, x, y) = 1 ∧ L (1, x, y) = 1 then 2 else 0)

/-- The `total_electrons` value accumulated by the same scan (hubbard.py
lines 94-100): `+2` where both layers hold a `1`, else `+1` where one does. -/
def scanElectrons (L : Grid) (N : ℕ) : ℕ :=
  ∑ x ∈ Finset.range N, ∑ y ∈ Finset.range N,
    (if L (0, x, y) = 1 ∧ L (1, x, y) = 1 then 2
     else if L (0, x, y) = 1 ∨ L (1, x, y) = 1 then 1 else 0)

/-- `Hubbard.reset_pairing_counters` (hubbard.py lines 85-100).  The source
reads `self.lattice`; it is only ever called after an initializer assigned
the lattice, so the `none` branch is unreachable there. -/
def reset_pairing_counters (h : Hubbard) : Hubbard :=
  match h.lattice with
  | none => h
  | some L =>
    { h with total_paired := scanPaired L h.size, pairing_events := 0,
             unpairing_events := 0, total_electrons := scanElectrons L h.size }

/-- The `while electrons_placed < target` loop of `initialize_lattice`
(hubbard.py lines 37-42).  `draws` is the list of `(x, y, spin)` triples the
two `np.random` calls return, one per iteration; `none` means the supplied
draw list ran out before the loop condition turned false. -/
def placeLoop (target : ℕ) : List (ℕ × ℕ × ℕ) → Grid → ℕ → Option Grid
  | [], L, placed => if placed < target then none else some L
  | (x, y, spin) :: rest, L, placed =>
    if placed < target then
      if L (spin, x, y) = 0 then
        placeLoop target rest (setCell L spin x y 1) (placed + 1)
      else
        placeLoop target rest L placed
    else some L

/-- `Hubbard.initialize_lattice` (hubbard.py lines 29-45): zero the lattice,
run the placement loop up to `min(num_electrons, 2 * size ** 2)`, then reset
the counters. -/
def initialize_lattice (h : Hubbard) (draws : List (ℕ × ℕ × ℕ)) : Option Hubbard :=
  (placeLoop (min h.num_electrons (2 * h.size ^ 2)) draws (fun _ => 0) 0).map
    fun L => reset_pairing_counters { h with lattice := some L }

/-- The lattice built by the double loop of `initialize_af` (hubbard.py lines
59-63): site `(x, y)` holds one electron of spin `(x + y) % 2`. -/
def afLattice (N : ℕ) : Grid :=
  fun q => if q.2.1 < N ∧ q.2.2 < N ∧ q.1 = (q.2.1 + q.2.2) % 2 then 1 else 0

/-- `Hubbard.initialize_af` (hubbard.py lines 47-66).  On odd size the source
prints an error message and returns with no state change; the Boolean
component records whether that error report was emitted. -/
def initialize_af (h : Hubbard) : Hubbard × Bool :=
  if h.size % 2 ≠ 0 then (h, true)
  else
    (reset_pairing_counters
      { h with num_electrons := h.size ^ 2, lattice := some (afLattice h.size) }, false)

/-- The lattice built by the double loop of `initialize_localized`
(hubbard.py lines 74-80): both spins occupied at every site with
`x < size / 2` (integer division). -/
def localizedLattice (N : ℕ) : Grid :=
  fun q => if q.1 < 2 ∧ q.2.1 < N / 2 ∧ q.2.2 < N then 1 else 0

/-- `Hubbard.initialize_localized` (hubbard.py lines 69-83). -/
def initialize_localized (h : Hubbard) : Hubbard :=
  reset_pairing_counters
    { h with num_electrons := h.size ^ 2, lattice := some (localizedLattice h.size) }

/-- `np.argwhere(self.lattice > 0)` (hubbard.py line 119): the occupied
`(spin, x, y)` triples in row-major order. -/
def occupiedSites (L : Grid) (N : ℕ) : List (ℕ × ℕ × ℕ) :=
  (List.range 2).flatMap fun s =>
    (List.range N).flatMap fun x =>
      (List.range N).filterMap fun y =>
        if 0 < L (s, x, y) then some (s, x, y) else none

/-- Which random-source call a step makes: the `np.random.randint` site
index (line 123), the `random.random()` field-bias draw (line 127), the
`random.choice` direction draw (line 133) and the `random.random()`
acceptance draw (line 155). -/
inductive DrawKind where
  | siteIdx
  | fieldBias
  | dirChoice
  | accept
deriving DecidableEq

/-- The tuple `simulate_step` returns: `(success, (x, y), spin,
(target_x, target_y))`, with `None` coordinate fields on an empty lattice. -/
structure MoveOutcome where
  accepted : Bool
  source : Option (ℕ × ℕ)
  spin : Option ℕ
  target : Option (ℕ × ℕ)
deriving DecidableEq

/-- One `simulate_step` call's observable effect: the returned tuple, the
post-state, the trace of random calls made, and how many times the
delta-energy block ran. -/
structure StepResult where
  outcome : MoveOutcome
  state : Hubbard
  consumed : List DrawKind
  energyEvals : ℕ

/-- The three random calls every non-empty step makes before the Metropolis
test, in source order (hubbard.py lines 123, 127, 133). -/
def proposalDraws : List DrawKind :=
  [DrawKind.siteIdx, DrawKind.fieldBias, DrawKind.dirChoice]

/-- `spin, x, y = occupied_sites[site_idx]` (hubbard.py lines 123-124); the
index is reduced mod the length, which is the identity for the in-range
indices `np.random.randint` produces. -/
def pickSite (L : Grid) (N : ℕ) (sD : ℕ) : ℕ × ℕ × ℕ :=
  (occupiedSites L N).getD (sD % (occupiedSites L N).length) (0, 0, 0)

/-- Neighbor selection (hubbard.py lines 127-133): the biased list when the
field draw is below the field strength, else the unbiased list, then one
`random.choice` among the four entries. -/
def dirOf (field fD : ℚ) (dD : ℕ) : ℤ × ℤ :=
  (if fD < field then [((0 : ℤ), (1 : ℤ)), (0, -1), (1, 0), (1, 0)]
   else [(0, 1), (0, -1), (1, 0), (-1, 0)]).getD (dD % 4) (0, 0)

/-- Periodic wraparound `(a + d) % N` (hubbard.py lines 134-135); Python's
`%` on ints is Euclidean mod, as is Lean's `Int.emod` for positive `N`. -/
def wrap (N : ℕ) (a : ℕ) (d : ℤ) : ℕ :=
  (((a : ℤ) + d) % (N : ℤ)).toNat

/-- A proposed move: source triple and target coordinates. -/
structure Proposal where
  spin : ℕ
  x : ℕ
  y : ℕ
  tx : ℕ
  ty : ℕ
deriving DecidableEq

/-- Lines 123-135 of hubbard.py: site selection, direction selection and
target computation. -/
def propose (h : Hubbard) (L : Grid) (sD : ℕ) (fD : ℚ) (dD : ℕ) : Proposal :=
  let pick := pickSite L h.size sD
  let d := dirOf h.electric_field_strength fD dD
  ⟨pick.1, pick.2.1, pick.2.2, wrap h.size pick.2.1 d.1, wrap h.size pick.2.2 d.2⟩

/-- `delta_energy` (hubbard.py lines 145-152): `-u` if the opposite spin is
occupied at the source, `+u` if it is occupied at the target. -/
def deltaE (u : ℚ) (cs ct : ℕ) : ℚ :=
  (if cs = 1 then -u else 0) + (if ct = 1 then u else 0)

/-- The `delta_energy` a step computes for its proposal. -/
def stepDelta (h : Hubbard) (L : Grid) (sD : ℕ) (fD : ℚ) (dD : ℕ) : ℚ :=
  deltaE h.u
    (L (1 - (propose h L sD fD dD).spin, (propose h L sD fD dD).x, (propose h L sD fD dD).y))
    (L (1 - (propose h L sD fD dD).spin, (propose h L sD fD dD).tx, (propose h L sD fD dD).ty))

/-- The mutation of an accepted move (hubbard.py lines 156-167): clear the
source cell, set the target cell, and update the pairing counters from the
companion occupancies. -/
def acceptUpdate (h : Hubbard) (L : Grid) (pr : Proposal) : Hubbard :=
  { h with
    lattice := some (setCell (setCell L pr.spin pr.x pr.y 0) pr.spin pr.tx pr.ty 1),
    unpairing_events :=
      h.unpairing_events + (if L (1 - pr.spin, pr.x, pr.y) = 1 then 1 else 0),
    total_paired :=
      h.total_paired - (if L (1 - pr.spin, pr.x, pr.y) = 1 then 2 else 0)
        + (if L (1 - pr.spin, pr.tx, pr.ty) = 1 then 2 else 0),
    pairing_events :=
      h.pairing_events + (if L (1 - pr.spin, pr.tx, pr.ty) = 1 then 1 else 0) }

open Classical in
/-- `Hubbard.simulate_step` (hubbard.py lines 110-172).  `none` models the
`ValueError` on an uninitialized lattice.  The Metropolis condition is the
source's `delta_energy < 0 or random.random() < np.exp(-delta_energy / t)`;
by short-circuiting, the acceptance draw is consumed only when
`delta_energy < 0` fails, and the exclusion rejection at line 141 returns
before the energy block runs. -/
noncomputable def simulate_step (h : Hubbard) (sD : ℕ) (fD : ℚ) (dD : ℕ) (aD : ℚ) :
    Option StepResult :=
  match h.lattice with
  | none => none
  | some L =>
    if occupiedSites L h.size = [] then
      some ⟨⟨false, none, none, none⟩, h, [], 0⟩
    else
      let pr := propose h L sD fD dD
      if L (pr.spin, pr.tx, pr.ty) = 1 then
        some ⟨⟨false, some (pr.x, pr.y), some pr.spin, some (pr.tx, pr.ty)⟩, h,
          proposalDraws, 0⟩
      else
        if stepDelta h L sD fD dD < 0 ∨
            (aD : ℝ) < Real.exp (-(stepDelta h L sD fD dD : ℝ) / (h.t : ℝ)) then
          some ⟨⟨true, some (pr.x, pr.y), some pr.spin, some (pr.tx, pr.ty)⟩,
            acceptUpdate h L pr,
            proposalDraws ++ if stepDelta h L sD fD dD < 0 then [] else [DrawKind.accept],
            1⟩
        else
          some ⟨⟨false, some (pr.x, pr.y), some pr.spin, some (pr.tx, pr.ty)⟩, h,
            proposalDraws ++ [DrawKind.accept], 1⟩

/-- Cells hold only 0 or 1. -/
def cells01 (L : Grid) : Prop := ∀ p, L p = 0 ∨ L p = 1

/-- The engine invariant the claims are about: whenever a lattice is
assigned, all cells are 0/1 and both running counters agree with a full
recount of the lattice. -/
def EngineInv (h : Hubbard) : Prop :=
  ∀ L, h.lattice = some L →
    cells01 L ∧ h.total_paired = 2 * pairedCount L h.size ∧
      h.total_electrons = occupiedCount L h.size

/-- The reachable engine states: any state produced by one of the three
initializers (on any prior state, as re-initialization is allowed), then
closed under `simulate_step` and under updates of the mutable field
strength. -/
inductive Reachable : Hubbard → Prop where
  | init_random (h0 : Hubbard) (draws : List (ℕ × ℕ × ℕ)) (h : Hubbard)
      (hv : ∀ d ∈ draws, d.1 < h0.size ∧ d.2.1 < h0.size ∧ d.2.2 < 2)
      (heq : initialize_lattice h0 draws = some h) : Reachable h
  | init_af (h0 : Hubbard) (heven : h0.size % 2 = 0) : Reachable (initialize_af h0).1
  | init_localized (h0 : Hubbard) : Reachable (initialize_localized h0)
  | step (h : Hubbard) (sD : ℕ) (fD : ℚ) (dD : ℕ) (aD : ℚ) (r : StepResult)
      (hr : Reachable h) (heq : simulate_step h sD fD dD aD = some r) :
      Reachable r.state
  | set_field (h : Hubbard) (c : ℚ) (hr : Reachable h) :
      Reachable { h with electric_field_strength := c }

/-! ### The process-global random sources

`Hubbard.__init__` calls `random.seed(seed)` and `np.random.seed(seed)`
(hubbard.py lines 26-27): these reseed the module-global generators that
every `Hubbard` object draws from.  The process RNG state is a seed and a
position per generator; the value each kind of call returns is abstracted
as a function of (seed, position), a parameter of the model. -/

structure Proc where
  npSeed : ℕ
  npPos : ℕ
  pySeed : ℕ
  pyPos : ℕ
deriving DecidableEq

/-- How the generators map (seed, position) to the values the three kinds
of calls return: `np.random.randint`, `random.random()` and the index
`random.choice` picks. -/
structure RNGModel where
  npInt : ℕ → ℕ → ℕ
  pyReal : ℕ → ℕ → ℚ
  pyChoice : ℕ → ℕ → ℕ

/-- `random.seed(seed)` and `np.random.seed(seed)`: both global generators
restart from the seed, from position 0, whatever their prior state. -/
def seedGlobals (seed : ℕ) (_p : Proc) : Proc :=
  ⟨seed, 0, seed, 0⟩

/-- Constructing a `Hubbard` object inside a process: the object's fields
are set and the process-global generators are reseeded. -/
def newHubbard (size : ℕ) (u t : ℚ) (num_electrons seed : ℕ) (p : Proc) :
    Hubbard × Proc :=
  (mkHubbard size u t num_electrons, seedGlobals seed p)

open Classical in
/-- A `simulate_step` call drawing from the process-global generators: the
candidate draws are read at the current positions and the positions advance
by the number of calls the step actually made to each generator. -/
noncomputable def stepInProc (R : RNGModel) (h : Hubbard) (p : Proc) :
    Option StepResult × Proc :=
  match simulate_step h (R.npInt p.npSeed p.npPos) (R.pyReal p.pySeed p.pyPos)
      (R.pyChoice p.pySeed (p.pyPos + 1)) (R.pyReal p.pySeed (p.pyPos + 2)) with
  | none => (none, p)
  | some r =>
    (some r,
      { p with npPos := p.npPos + r.consumed.count DrawKind.siteIdx,
               pyPos := p.pyPos + (r.consumed.filter (· ≠ DrawKind.siteIdx)).length })

/-! ### Concrete engine states used as witnesses -/

/-- A 2-by-2 antiferromagnetic engine. -/
def hAF : Hubbard := (initialize_af (mkHubbard 2 1 1 10)).1

/-- A 2-by-2 localized engine: the left column doubly occupied. -/
def hLOC : Hubbard := initialize_localized (mkHubbard 2 1 1 4)

/-- An initialized engine whose lattice holds no electron. -/
def hEMP : Hubbard := { mkHubbard 2 1 1 0 with lattice := some fun _ => 0 }

/-- A concrete generator model: the site-index stream walks with the seed,
the real draws are 0, the choice index is the third neighbor. -/
def Rcx : RNGModel := ⟨fun s n => s + n, fun _ _ => 0, fun _ _ => 2⟩

theorem step_none (h : Hubbard) (sD : ℕ) (fD : ℚ) (dD : ℕ) (aD : ℚ)
    (hL : h.lattice = none) : simulate_step h sD fD dD aD = none := by
  simp [simulate_step, hL]

theorem step_empty (h : Hubbard) (L : Grid) (sD : ℕ) (fD : ℚ) (dD : ℕ) (aD : ℚ)
    (hL : h.lattice = some L) (he : occupiedSites L h.size = []) :
    simulate_step h sD fD dD aD = some ⟨⟨false, none, none, none⟩, h, [], 0⟩ := by
  simp [simulate_step, hL, he]

theorem step_excl (h : Hubbard) (L : Grid) (sD : ℕ) (fD : ℚ) (dD : ℕ) (aD : ℚ)
    (hL : h.lattice = some L) (hne : occupiedSites L h.size ≠ [])
    (hx : L ((propose h L sD fD dD).spin, (propose h L sD fD dD).tx,
      (propose h L sD fD dD).ty) = 1) :
    simulate_step h sD fD dD aD =
      some ⟨⟨false, some ((propose h L sD fD dD).x, (propose h L sD fD dD).y),
        some (propose h L sD fD dD).spin,
        some ((propose h L sD fD dD).tx, (propose h L sD fD dD).ty)⟩, h,
        proposalDraws, 0⟩ := by
  simp [simulate_step, hL, hne, hx]

theorem step_accept (h : Hubbard) (L : Grid) (sD : ℕ) (fD : ℚ) (dD : ℕ) (aD : ℚ)
    (hL : h.lattice = some L) (hne : occupiedSites L h.size ≠ [])
    (hx : L ((propose h L sD fD dD).spin, (propose h L sD fD dD).tx,
      (propose h L sD fD dD).ty) ≠ 1)
    (hacc : stepDelta h L sD fD dD < 0 ∨
      (aD : ℝ) < Real.exp (-(stepDelta h L sD fD dD : ℝ) / (h.t : ℝ))) :
    simulate_step h sD fD dD aD =
      some ⟨⟨true, some ((propose h L sD fD dD).x, (propose h L sD fD dD).y),
        some (propose h L sD fD dD).spin,
        some ((propose h L sD fD dD).tx, (propose h L sD fD dD).ty)⟩,
        acceptUpdate h L (propose h L sD fD dD),
        proposalDraws ++ if stepDelta h L sD fD dD < 0 then [] else [DrawKind.accept],
        1⟩ := by
  simp only [simulate_step, hL]
  rw [if_neg hne, if_neg hx, if_pos hacc]

theorem step_reject (h : Hubbard) (L : Grid) (sD : ℕ) (fD : ℚ) (dD : ℕ) (aD : ℚ)
    (hL : h.lattice = some L) (hne : occupiedSites L h.size ≠ [])
    (hx : L ((propose h L sD fD dD).spin, (propose h L sD fD dD).tx,
      (propose h L sD fD dD).ty) ≠ 1)
    (hacc : ¬(stepDelta h L sD fD dD < 0 ∨
      (aD : ℝ) < Real.exp (-(stepDelta h L sD fD dD : ℝ) / (h.t : ℝ)))) :
    simulate_step h sD fD dD aD =
      some ⟨⟨false, some ((propose h L sD fD dD).x, (propose h L sD fD dD).y),
        some (propose h L sD fD dD).spin,
        some ((propose h L sD fD dD).tx, (propose h L sD fD dD).ty)⟩, h,
        proposalDraws ++ [DrawKind.accept], 1⟩ := by
  simp only [simulate_step, hL]
  rw [if_neg hne, if_neg hx, if_neg hacc]

/-! ### Basic facts about the proposal machinery -/

theorem mem_occupiedSites {L : Grid} {N : ℕ} {q : ℕ × ℕ × ℕ} :
    q ∈ occupiedSites L N ↔ q.1 < 2 ∧ q.2.1 < N ∧ q.2.2 < N ∧ 0 < L q := by
  obtain ⟨s, x, y⟩ := q
  simp only [occupiedSites, List.mem_flatMap, List.mem_filterMap, List.mem_range]
  constructor
  · rintro ⟨s', hs', x', hx', y', hy', hif⟩
    split_ifs at hif with h0
    · obtain ⟨rfl, rfl, rfl⟩ : s' = s ∧ x' = x ∧ y' = y := by
        simpa [Prod.ext_iff] using hif
      exact ⟨hs', hx', hy', h0⟩
  · rintro ⟨hs, hx, hy, h0⟩
    exact ⟨s, hs, ⟨x, hx, y, hy, by rw [if_pos h0]⟩⟩

theorem pickSite_mem (L : Grid) (N : ℕ) (sD : ℕ) (hne : occupiedSites L N ≠ []) :
    pickSite L N sD ∈ occupiedSites L N := by
  unfold pickSite
  have hlen : 0 < (occupiedSites L N).length := List.length_pos.mpr hne
  rw [List.getD_eq_getElem _ _ (Nat.mod_lt _ hlen)]
  exact List.getElem_mem _

theorem wrap_lt {N : ℕ} (hN : 0 < N) (a : ℕ) (d : ℤ) : wrap N a d < N := by
  unfold wrap
  have h1 : (0 : ℤ) < (N : ℤ) := by exact_mod_cast hN
  have h2 := Int.emod_lt_of_pos ((a : ℤ) + d) h1
  have h3 := Int.emod_nonneg ((a : ℤ) + d) (by omega : (N : ℤ) ≠ 0)
  omega

/-- The facts hubbard.py lines 123-135 guarantee about a proposal when the
lattice has occupied sites: the source triple is a genuine occupied in-range
cell and the wrapped target is in range. -/
theorem propose_mem (h : Hubbard) (L : Grid) (sD : ℕ) (fD : ℚ) (dD : ℕ)
    (hne : occupiedSites L h.size ≠ []) :
    (propose h L sD fD dD).spin < 2 ∧ (propose h L sD fD dD).x < h.size ∧
    (propose h L sD fD dD).y < h.size ∧
    0 < L ((propose h L sD fD dD).spin, (propose h L sD fD dD).x, (propose h L sD fD dD).y) ∧
    (propose h L sD fD dD).tx < h.size ∧ (propose h L sD fD dD).ty < h.size := by
  have hm := pickSite_mem L h.size sD hne
  rw [mem_occupiedSites] at hm
  obtain ⟨hs, hx, hy, h0⟩ := hm
  have hN : 0 < h.size := by omega
  exact ⟨hs, hx, hy, h0, wrap_lt hN _ _, wrap_lt hN _ _⟩

/-! ### Cell updates and counting -/

theorem setCell_self (L : Grid) (s x y v : ℕ) : setCell L s x y v (s, x, y) = v := by
  simp [setCell]

theorem setCell_ne (L : Grid) (s x y v : ℕ) {p : ℕ × ℕ × ℕ} (hp : p ≠ (s, x, y)) :
    setCell L s x y v p = L p := by
  simp [setCell, hp]

theorem cells01_setCell {L : Grid} (c01 : cells01 L) (s x y v : ℕ)
    (hv : v = 0 ∨ v = 1) : cells01 (setCell L s x y v) := by
  intro p
  by_cases hp : p = (s, x, y)
  · subst hp; rw [setCell_self]; exact hv
  · rw [setCell_ne _ _ _ _ _ hp]; exact c01 p

theorem sum_eq_of_support_subset_pair {α : Type} [DecidableEq α] (T : Finset α)
    (F : α → ℤ) (a b : α) (hab : a ≠ b) (ha : a ∈ T) (hb : b ∈ T)
    (h0 : ∀ p ∈ T, p ≠ a → p ≠ b → F p = 0) :
    ∑ p ∈ T, F p = F a + F b := by
  have hsub : ({a, b} : Finset α) ⊆ T := by
    intro p hp
    rcases Finset.mem_insert.mp hp with rfl | hp
    · exact ha
    · rw [Finset.mem_singleton] at hp; subst hp; exact hb
  rw [← Finset.sum_subset hsub]
  · exact Finset.sum_pair hab
  · intro p hpT hpn
    simp only [Finset.mem_insert, Finset.mem_singleton, not_or] at hpn
    exact h0 p hpT hpn.1 hpn.2

theorem mem_cellBlock {N s x y : ℕ} (hs : s < 2) (hx : x < N) (hy : y < N) :
    ((s, x, y) : ℕ × ℕ × ℕ) ∈ Finset.range 2 ×ˢ Finset.range N ×ˢ Finset.range N := by
  simp [Finset.mem_product, hs, hx, hy]

/-- Writing `v` into one in-range cell changes `occupiedCount` by the
indicator difference at that cell. -/
theorem occupiedCount_setCell (L : Grid) (N s x y v : ℕ)
    (hs : s < 2) (hx : x < N) (hy : y < N) :
    (occupiedCount (setCell L s x y v) N : ℤ) =
      (occupiedCount L N : ℤ) +
        ((if v = 1 then 1 else 0) - (if L (s, x, y) = 1 then 1 else 0)) := by
  have hmem := mem_cellBlock hs hx hy (N := N)
  have hdiff :
      ∑ q ∈ Finset.range 2 ×ˢ Finset.range N ×ˢ Finset.range N,
        ((if setCell L s x y v q = 1 then (1 : ℤ) else 0) -
          (if L q = 1 then 1 else 0)) =
      (if v = 1 then (1 : ℤ) else 0) - (if L (s, x, y) = 1 then 1 else 0) := by
    have := Finset.sum_subset (Finset.singleton_subset_iff.mpr hmem)
      (f := fun q => (if setCell L s x y v q = 1 then (1 : ℤ) else 0) -
        (if L q = 1 then 1 else 0))
      (by
        intro q hq hq'
        rw [Finset.mem_singleton] at hq'
        simp only [setCell_ne _ _ _ _ _ hq']
        ring)
    rw [← this, Finset.sum_singleton, setCell_self]
  rw [Finset.sum_sub_distrib] at hdiff
  unfold occupiedCount
  push_cast
  linarith [hdiff]

/-- Effect of an accepted move on the doubly-occupied-site count: the source
site loses a pair when its companion is present, the target site gains one
when its companion is present. -/
theorem pairedCount_move (L : Grid) (N s x y tx ty : ℕ)
    (hs : s < 2) (hx : x < N) (hy : y < N) (htx : tx < N) (hty : ty < N)
    (hsrc : L (s, x, y) = 1) (htgt : L (s, tx, ty) ≠ 1) :
    pairedCount (setCell (setCell L s x y 0) s tx ty 1) N =
      pairedCount L N - (if L (1 - s, x, y) = 1 then 1 else 0)
        + (if L (1 - s, tx, ty) = 1 then 1 else 0) := by
  set L' := setCell (setCell L s x y 0) s tx ty 1 with hLpdef
  have hxyne : ((x, y) : ℕ × ℕ) ≠ (tx, ty) := by
    intro hc
    rw [Prod.mk.injEq] at hc
    obtain ⟨rfl, rfl⟩ := hc
    exact htgt hsrc
  have hflip : 1 - s ≠ s := by omega
  have e1 : L' (s, tx, ty) = 1 := setCell_self _ _ _ _ _
  have e2 : L' (s, x, y) = 0 := by
    rw [hLpdef, setCell_ne _ _ _ _ _ (fun hc => hxyne (congrArg Prod.snd hc)), setCell_self]
  have e3 : L' (1 - s, x, y) = L (1 - s, x, y) := by
    rw [hLpdef, setCell_ne _ _ _ _ _ (fun hc => hflip (congrArg Prod.fst hc)),
        setCell_ne _ _ _ _ _ (fun hc => hflip (congrArg Prod.fst hc))]
  have e4 : L' (1 - s, tx, ty) = L (1 - s, tx, ty) := by
    rw [hLpdef, setCell_ne _ _ _ _ _ (fun hc => hflip (congrArg Prod.fst hc)),
        setCell_ne _ _ _ _ _ (fun hc => hflip (congrArg Prod.fst hc))]
  have e5 : ∀ a b : ℕ, (a, b) ≠ ((x, y) : ℕ × ℕ) → (a, b) ≠ ((tx, ty) : ℕ × ℕ) →
      ∀ s' : ℕ, L' (s', a, b) = L (s', a, b) := by
    intro a b h1 h2 s'
    rw [hLpdef, setCell_ne _ _ _ _ _ (fun hc => h2 (congrArg Prod.snd hc)),
        setCell_ne _ _ _ _ _ (fun hc => h1 (congrArg Prod.snd hc))]
  have key : ∑ p ∈ Finset.range N ×ˢ Finset.range N,
      ((if L' (0, p.1, p.2) = 1 ∧ L' (1, p.1, p.2) = 1 then (1 : ℤ) else 0) -
        (if L (0, p.1, p.2) = 1 ∧ L (1, p.1, p.2) = 1 then 1 else 0)) =
      (0 - (if L (1 - s, x, y) = 1 then 1 else 0)) +
        ((if L (1 - s, tx, ty) = 1 then 1 else 0) - 0) := by
    rw [sum_eq_of_support_subset_pair _ _ ((x, y) : ℕ × ℕ) ((tx, ty) : ℕ × ℕ) hxyne
      (by simp [Finset.mem_product, hx, hy]) (by simp [Finset.mem_product, htx, hty]) ?hz]
    case hz =>
      rintro ⟨a, b⟩ _ h1 h2
      simp only
      rw [e5 a b h1 h2 0, e5 a b h1 h2 1]
      ring
    have hcongr : ((if L' (0, x, y) = 1 ∧ L' (1, x, y) = 1 then (1 : ℤ) else 0) -
          (if L (0, x, y) = 1 ∧ L (1, x, y) = 1 then 1 else 0)) +
        ((if L' (0, tx, ty) = 1 ∧ L' (1, tx, ty) = 1 then (1 : ℤ) else 0) -
          (if L (0, tx, ty) = 1 ∧ L (1, tx, ty) = 1 then 1 else 0)) =
        (0 - (if L (1 - s, x, y) = 1 then 1 else 0)) +
          ((if L (1 - s, tx, ty) = 1 then 1 else 0) - 0) := by
      rcases (by omega : s = 0 ∨ s = 1) with rfl | rfl
      · norm_num at e1 e2 e3 e4 ⊢
        simp only [e1, e2, e3, e4, hsrc]
        simp [htgt]
      · norm_num at e1 e2 e3 e4 ⊢
        simp only [e1, e2, e3, e4, hsrc]
        simp [htgt]
    exact hcongr
  rw [Finset.sum_sub_distrib] at key
  unfold pairedCount
  linarith [key]

/-! ### The full-scan counters agree with the abstract counts -/

theorem scanPaired_eq (L : Grid) (N : ℕ) : scanPaired L N = 2 * pairedCount L N := by
  unfold scanPaired pairedCount
  rw [Finset.sum_product, Finset.mul_sum]
  refine Finset.sum_congr rfl fun x _ => ?_
  rw [Finset.mul_sum]
  refine Finset.sum_congr rfl fun y _ => ?_
  split_ifs <;> norm_num

theorem scanElectrons_eq (L : Grid) (N : ℕ) : scanElectrons L N = occupiedCount L N := by
  unfold scanElectrons occupiedCount
  rw [Finset.sum_product, Finset.sum_range_succ, Finset.sum_range_succ,
    Finset.sum_range_zero, Finset.sum_product, Finset.sum_product]
  rw [zero_add, ← Finset.sum_add_distrib]
  refine Finset.sum_congr rfl fun x _ => ?_
  rw [← Finset.sum_add_distrib]
  refine Finset.sum_congr rfl fun y _ => ?_
  by_cases h0 : L (0, x, y) = 1 <;> by_cases h1 : L (1, x, y) = 1 <;> simp [h0, h1]

theorem reset_fields (h : Hubbard) (L : Grid) (hL : h.lattice = some L) :
    reset_pairing_counters h =
      { h with total_paired := scanPaired L h.size, pairing_events := 0,
               unpairing_events := 0, total_electrons := scanElectrons L h.size } := by
  unfold reset_pairing_counters
  rw [hL]

theorem reset_inv (h : Hubbard) (L : Grid) (hL : h.lattice = some L)
    (c01 : cells01 L) : EngineInv (reset_pairing_counters h) := by
  intro L' hL'
  rw [reset_fields h L hL] at hL' ⊢
  simp only at hL'
  rw [hL] at hL'
  obtain rfl : L = L' := Option.some.inj hL'
  exact ⟨c01, by simp [scanPaired_eq], by simp [scanElectrons_eq]⟩

/-! ### Initializers establish the invariant -/

theorem placeLoop_inv (N target : ℕ) (draws : List (ℕ × ℕ × ℕ)) :
    ∀ (L : Grid) (placed : ℕ) (L₂ : Grid),
      (∀ d ∈ draws, d.1 < N ∧ d.2.1 < N ∧ d.2.2 < 2) →
      cells01 L → occupiedCount L N = placed → placed ≤ target →
      placeLoop target draws L placed = some L₂ →
      cells01 L₂ ∧ occupiedCount L₂ N = target := by
  induction draws with
  | nil =>
    intro L placed L₂ hv c01 hcount hle heq
    simp only [placeLoop] at heq
    split_ifs at heq with hlt
    obtain rfl : L = L₂ := Option.some.inj heq
    exact ⟨c01, by omega⟩
  | cons d rest ih =>
    obtain ⟨x, y, spin⟩ := d
    intro L placed L₂ hv c01 hcount hle heq
    simp only [placeLoop] at heq
    split_ifs at heq with hlt hempty
    · obtain ⟨hdx, hdy, hds⟩ := hv (x, y, spin) (List.mem_cons_self _ _)
      refine ih (setCell L spin x y 1) (placed + 1) L₂
        (fun d hd => hv d (List.mem_cons_of_mem _ hd))
        (cells01_setCell c01 _ _ _ _ (Or.inr rfl)) ?_ (by omega) heq
      have hz := occupiedCount_setCell L N spin x y 1 hds hdx hdy
      rw [if_pos rfl, if_neg (by omega : ¬L (spin, x, y) = 1)] at hz
      omega
    · exact ih L placed L₂ (fun d hd => hv d (List.mem_cons_of_mem _ hd))
        c01 hcount hle heq
    · obtain rfl : L = L₂ := Option.some.inj heq
      exact ⟨c01, by omega⟩

theorem occupiedCount_zero (N : ℕ) : occupiedCount (fun _ => 0) N = 0 := by
  simp [occupiedCount]

/-- What a finished random initialization guarantees: the invariant, and
exactly `min(num_electrons, 2 * size ** 2)` occupied cells. -/
theorem initialize_lattice_spec (h0 : Hubbard) (draws : List (ℕ × ℕ × ℕ)) (h' : Hubbard)
    (hv : ∀ d ∈ draws, d.1 < h0.size ∧ d.2.1 < h0.size ∧ d.2.2 < 2)
    (heq : initialize_lattice h0 draws = some h') :
    EngineInv h' ∧ h'.size = h0.size ∧
      ∀ L, h'.lattice = some L →
        occupiedCount L h0.size = min h0.num_electrons (2 * h0.size ^ 2) := by
  unfold initialize_lattice at heq
  cases hpl : placeLoop (min h0.num_electrons (2 * h0.size ^ 2)) draws (fun _ => 0) 0 with
  | none => rw [hpl] at heq; cases heq
  | some L₀ =>
    rw [hpl] at heq
    simp only [Option.map_some'] at heq
    obtain ⟨c01, hcnt⟩ := placeLoop_inv h0.size _ draws (fun _ => 0) 0 L₀ hv
      (fun _ => Or.inl rfl) (occupiedCount_zero h0.size) (Nat.zero_le _) hpl
    obtain rfl : _ = h' := Option.some.inj heq
    refine ⟨reset_inv _ L₀ rfl c01, ?_, ?_⟩
    · rw [reset_fields _ L₀ rfl]
    · intro L hL
      rw [reset_fields _ L₀ rfl] at hL
      simp only at hL
      obtain rfl : L₀ = L := Option.some.inj hL
      exact hcnt

theorem cells01_afLattice (N : ℕ) : cells01 (afLattice N) := by
  intro p
  unfold afLattice
  split_ifs <;> simp

theorem cells01_localizedLattice (N : ℕ) : cells01 (localizedLattice N) := by
  intro p
  unfold localizedLattice
  split_ifs <;> simp

theorem initialize_af_even_inv (h0 : Hubbard) (heven : h0.size % 2 = 0) :
    EngineInv (initialize_af h0).1 := by
  unfold initialize_af
  rw [if_neg (by omega : ¬h0.size % 2 ≠ 0)]
  exact reset_inv _ (afLattice h0.size) rfl (cells01_afLattice h0.size)

theorem initialize_localized_inv (h0 : Hubbard) :
    EngineInv (initialize_localized h0) :=
  reset_inv _ (localizedLattice h0.size) rfl (cells01_localizedLattice h0.size)

/-- One `simulate_step` call preserves the invariant, the lattice size, the
`total_electrons` counter and the number of occupied cells. -/
theorem step_preserves (h : Hubbard) (hInv : EngineInv h) (sD : ℕ) (fD : ℚ) (dD : ℕ)
    (aD : ℚ) (r : StepResult) (heq : simulate_step h sD fD dD aD = some r) :
    EngineInv r.state ∧ r.state.size = h.size ∧
      r.state.total_electrons = h.total_electrons ∧
      ∀ L L', h.lattice = some L → r.state.lattice = some L' →
        occupiedCount L' h.size = occupiedCount L h.size := by
  cases hL : h.lattice with
  | none => rw [step_none h sD fD dD aD hL] at heq; cases heq
  | some L =>
    by_cases he : occupiedSites L h.size = []
    · rw [step_empty h L sD fD dD aD hL he] at heq
      obtain rfl : _ = r := Option.some.inj heq
      refine ⟨hInv, rfl, rfl, ?_⟩
      intro L1 L2 h1 h2
      dsimp only at h2
      rw [hL] at h2
      obtain rfl := Option.some.inj h1
      obtain rfl := Option.some.inj h2
      rfl
    · by_cases hx : L ((propose h L sD fD dD).spin, (propose h L sD fD dD).tx,
        (propose h L sD fD dD).ty) = 1
      · rw [step_excl h L sD fD dD aD hL he hx] at heq
        obtain rfl : _ = r := Option.some.inj heq
        refine ⟨hInv, rfl, rfl, ?_⟩
        intro L1 L2 h1 h2
        dsimp only at h2
        rw [hL] at h2
        obtain rfl := Option.some.inj h1
        obtain rfl := Option.some.inj h2
        rfl
      · by_cases hacc : stepDelta h L sD fD dD < 0 ∨
          (aD : ℝ) < Real.exp (-(stepDelta h L sD fD dD : ℝ) / (h.t : ℝ))
        · rw [step_accept h L sD fD dD aD hL he hx hacc] at heq
          obtain rfl : _ = r := Option.some.inj heq
          obtain ⟨hs2, hxlt, hylt, hocc, htxlt, htylt⟩ := propose_mem h L sD fD dD he
          obtain ⟨c01, hpair, helec⟩ := hInv L hL
          set pr := propose h L sD fD dD with hpr
          have hsrc : L (pr.spin, pr.x, pr.y) = 1 := by
            rcases c01 (pr.spin, pr.x, pr.y) with h0 | h1
            · omega
            · exact h1
          have hxyne : ((pr.tx, pr.ty) : ℕ × ℕ) ≠ (pr.x, pr.y) := by
            intro hc
            rw [Prod.mk.injEq] at hc
            exact hx (by rw [hc.1, hc.2]; exact hsrc)
          have hpm := pairedCount_move L h.size pr.spin pr.x pr.y pr.tx pr.ty
            hs2 hxlt hylt htxlt htylt hsrc hx
          have hcellt : setCell L pr.spin pr.x pr.y 0 (pr.spin, pr.tx, pr.ty)
              = L (pr.spin, pr.tx, pr.ty) :=
            setCell_ne _ _ _ _ _ (fun hc => hxyne (congrArg Prod.snd hc))
          have hoc1 := occupiedCount_setCell L h.size pr.spin pr.x pr.y 0 hs2 hxlt hylt
          have hoc2 := occupiedCount_setCell (setCell L pr.spin pr.x pr.y 0) h.size
            pr.spin pr.tx pr.ty 1 hs2 htxlt htylt
          rw [if_neg (by omega : ¬(0 : ℕ) = 1), if_pos hsrc] at hoc1
          rw [if_pos rfl, hcellt, if_neg hx] at hoc2
          have hoc : occupiedCount
              (setCell (setCell L pr.spin pr.x pr.y 0) pr.spin pr.tx pr.ty 1) h.size =
              occupiedCount L h.size := by omega
          have hc01new : cells01
              (setCell (setCell L pr.spin pr.x pr.y 0) pr.spin pr.tx pr.ty 1) :=
            cells01_setCell (cells01_setCell c01 _ _ _ _ (Or.inl rfl)) _ _ _ _ (Or.inr rfl)
          refine ⟨?_, rfl, rfl, ?_⟩
          · intro L2 hL2
            dsimp only [acceptUpdate] at hL2 ⊢
            obtain rfl := Option.some.inj hL2
            refine ⟨hc01new, ?_, ?_⟩
            · rw [hpm, hpair]
              split_ifs <;> ring
            · rw [helec, hoc]
          · intro L1 L2 h1 h2
            dsimp only [acceptUpdate] at h2
            obtain rfl := Option.some.inj h1
            obtain rfl := Option.some.inj h2
            exact hoc
        · rw [step_reject h L sD fD dD aD hL he hx hacc] at heq
          obtain rfl : _ = r := Option.some.inj heq
          refine ⟨hInv, rfl, rfl, ?_⟩
          intro L1 L2 h1 h2
          dsimp only at h2
          rw [hL] at h2
          obtain rfl := Option.some.inj h1
          obtain rfl := Option.some.inj h2
          rfl

/-- Every reachable state satisfies the engine invariant. -/
theorem reachable_inv {h : Hubbard} (hr : Reachable h) : EngineInv h := by
  induction hr with
  | init_random h0 draws h hv heq => exact (initialize_lattice_spec h0 draws h hv heq).1
  | init_af h0 heven => exact initialize_af_even_inv h0 heven
  | init_localized h0 => exact initialize_localized_inv h0
  | step h sD fD dD aD r hr heq ih => exact (step_preserves h ih sD fD dD aD r heq).1
  | set_field h c hr ih =>
    intro L hL
    exact ih L hL

/-- Whatever the Metropolis comparison decides, a step on a non-empty
lattice reports the proposed source, spin and target in its outcome. -/
theorem simulate_step_source (h : Hubbard) (L : Grid) (sD : ℕ) (fD : ℚ) (dD : ℕ)
    (aD : ℚ) (hL : h.lattice = some L) (hne : occupiedSites L h.size ≠ []) :
    ∃ r, simulate_step h sD fD dD aD = some r ∧
      r.outcome.source = some ((propose h L sD fD dD).x, (propose h L sD fD dD).y) ∧
      r.outcome.spin = some (propose h L sD fD dD).spin ∧
      r.outcome.target = some ((propose h L sD fD dD).tx, (propose h L sD fD dD).ty) := by
  by_cases hx : L ((propose h L sD fD dD).spin, (propose h L sD fD dD).tx,
      (propose h L sD fD dD).ty) = 1
  · exact ⟨_, step_excl h L sD fD dD aD hL hne hx, rfl, rfl, rfl⟩
  · by_cases hacc : stepDelta h L sD fD dD < 0 ∨
      (aD : ℝ) < Real.exp (-(stepDelta h L sD fD dD : ℝ) / (h.t : ℝ))
    · exact ⟨_, step_accept h L sD fD dD aD hL hne hx hacc, rfl, rfl, rfl⟩
    · exact ⟨_, step_reject h L sD fD dD aD hL hne hx hacc, rfl, rfl, rfl⟩

/-! ### The claims -/

/-- C1: for every initialized lattice and after every sequence of
`simulate_step` calls, the incrementally maintained `total_paired` equals
2 times the number of sites at which both spin layers are occupied, and it
agrees exactly with the value a full rescan by `reset_pairing_counters`
would compute from the lattice. -/
theorem C1_total_paired_consistency (h : Hubbard) (L : Grid)
    (hr : Reachable h) (hL : h.lattice = some L) :
    h.total_paired = 2 * pairedCount L h.size ∧
      (reset_pairing_counters h).total_paired = h.total_paired := by
  obtain ⟨c01, hpair, helec⟩ := reachable_inv hr L hL
  refine ⟨hpair, ?_⟩
  rw [reset_fields h L hL]
  simp [scanPaired_eq, hpair]

/-- Witness for C1: the concrete localized 2-by-2 engine. -/
theorem C1_witness :
    hLOC.total_paired = 2 * pairedCount (localizedLattice 2) hLOC.size ∧
      (reset_pairing_counters hLOC).total_paired = hLOC.total_paired :=
  C1_total_paired_consistency hLOC (localizedLattice 2)
    (Reachable.init_localized (mkHubbard 2 1 1 4)) rfl

/-- C2: in every reachable state every cell holds 0 or 1, and every
accepted move has its same-spin target cell empty immediately before and
occupied immediately after, while the source cell is occupied before and
empty after. -/
theorem C2_exclusion_invariant (h : Hubbard) (L : Grid)
    (hr : Reachable h) (hL : h.lattice = some L) :
    (∀ p, L p = 0 ∨ L p = 1) ∧
      (∀ (sD : ℕ) (fD : ℚ) (dD : ℕ) (aD : ℚ) (r : StepResult),
        simulate_step h sD fD dD aD = some r → r.outcome.accepted = true →
        ∃ s x y tx ty, r.outcome.spin = some s ∧ r.outcome.source = some (x, y) ∧
          r.outcome.target = some (tx, ty) ∧
          L (s, x, y) = 1 ∧ L (s, tx, ty) = 0 ∧
          ∃ L', r.state.lattice = some L' ∧ L' (s, x, y) = 0 ∧ L' (s, tx, ty) = 1) := by
  obtain ⟨c01, hpair, helec⟩ := reachable_inv hr L hL
  refine ⟨c01, ?_⟩
  intro sD fD dD aD r heq hacc'
  by_cases he : occupiedSites L h.size = []
  · rw [step_empty h L sD fD dD aD hL he] at heq
    obtain rfl := Option.some.inj heq
    exact Bool.noConfusion hacc'
  · by_cases hx : L ((propose h L sD fD dD).spin, (propose h L sD fD dD).tx,
      (propose h L sD fD dD).ty) = 1
    · rw [step_excl h L sD fD dD aD hL he hx] at heq
      obtain rfl := Option.some.inj heq
      exact Bool.noConfusion hacc'
    · by_cases hacc : stepDelta h L sD fD dD < 0 ∨
        (aD : ℝ) < Real.exp (-(stepDelta h L sD fD dD : ℝ) / (h.t : ℝ))
      · rw [step_accept h L sD fD dD aD hL he hx hacc] at heq
        obtain rfl := Option.some.inj heq
        obtain ⟨hs2, hxlt, hylt, hocc, htxlt, htylt⟩ := propose_mem h L sD fD dD he
        set pr := propose h L sD fD dD with hpr
        have hsrc : L (pr.spin, pr.x, pr.y) = 1 := by
          rcases c01 (pr.spin, pr.x, pr.y) with h0 | h1
          · omega
          · exact h1
        have htgt0 : L (pr.spin, pr.tx, pr.ty) = 0 := by
          rcases c01 (pr.spin, pr.tx, pr.ty) with h0 | h1
          · exact h0
          · exact absurd h1 hx
        have hxyne : ((pr.tx, pr.ty) : ℕ × ℕ) ≠ (pr.x, pr.y) := by
          intro hc
          rw [Prod.mk.injEq] at hc
          exact hx (by rw [hc.1, hc.2]; exact hsrc)
        refine ⟨pr.spin, pr.x, pr.y, pr.tx, pr.ty, rfl, rfl, rfl, hsrc, htgt0,
          setCell (setCell L pr.spin pr.x pr.y 0) pr.spin pr.tx pr.ty 1, rfl, ?_, ?_⟩
        · have h1 := setCell_ne (setCell L pr.spin pr.x pr.y 0) pr.spin pr.tx pr.ty 1
            (p := (pr.spin, pr.x, pr.y)) (fun hc => hxyne (congrArg Prod.snd hc).symm)
          rw [h1]
          exact setCell_self _ _ _ _ _
        · exact setCell_self _ _ _ _ _
      · rw [step_reject h L sD fD dD aD hL he hx hacc] at heq
        obtain rfl := Option.some.inj heq
        exact Bool.noConfusion hacc'

/-- Witness for C2: hard-core occupancy of one concrete cell of the
localized engine. -/
theorem C2_witness :
    localizedLattice 2 (0, 0, 0) = 0 ∨ localizedLattice 2 (0, 0, 0) = 1 :=
  (C2_exclusion_invariant hLOC (localizedLattice 2)
    (Reachable.init_localized (mkHubbard 2 1 1 4)) rfl).1 (0, 0, 0)

/-- C10: a step conserves the particle count: the number of cells equal
to 1 and the `total_electrons` counter are unchanged, accepted or not. -/
theorem C10_particle_conservation (h : Hubbard) (sD : ℕ) (fD : ℚ) (dD : ℕ) (aD : ℚ)
    (r : StepResult) (hr : Reachable h) (heq : simulate_step h sD fD dD aD = some r) :
    r.state.total_electrons = h.total_electrons ∧
      ∀ L L', h.lattice = some L → r.state.lattice = some L' →
        occupiedCount L' h.size = occupiedCount L h.size := by
  obtain ⟨_, _, h3, h4⟩ := step_preserves h (reachable_inv hr) sD fD dD aD r heq
  exact ⟨h3, h4⟩

/-- Witness for C10: a concrete exclusion-rejected step on the localized
engine keeps the electron counter. -/
theorem C10_witness :
    ∃ r, simulate_step hLOC 0 1 0 0 = some r ∧
      r.state.total_electrons = hLOC.total_electrons := by
  have heq := step_excl hLOC (localizedLattice 2) 0 1 0 0 rfl (by decide) (by decide)
  exact ⟨_, heq,
    (C10_particle_conservation hLOC 0 1 0 0 _ (Reachable.init_localized _) heq).1⟩

/-- C3: for a proposed move whose same-spin target is empty, the move is
accepted iff `delta < 0` or the acceptance draw is below
`exp(-delta / t)`; `delta < 0` accepts unconditionally, and `delta = 0` is
routed through the probabilistic branch (the acceptance draw is consumed)
and always accepted since `exp 0 = 1` exceeds every draw in `[0, 1)`. -/
theorem C3_metropolis_rule (h : Hubbard) (L : Grid) (sD : ℕ) (fD : ℚ) (dD : ℕ) (aD : ℚ)
    (hL : h.lattice = some L) (hne : occupiedSites L h.size ≠ [])
    (htgt : L ((propose h L sD fD dD).spin, (propose h L sD fD dD).tx,
      (propose h L sD fD dD).ty) ≠ 1) :
    ∃ r, simulate_step h sD fD dD aD = some r ∧
      (r.outcome.accepted = true ↔ stepDelta h L sD fD dD < 0 ∨
        (aD : ℝ) < Real.exp (-(stepDelta h L sD fD dD : ℝ) / (h.t : ℝ))) ∧
      (stepDelta h L sD fD dD < 0 → r.outcome.accepted = true) ∧
      (stepDelta h L sD fD dD = 0 → 0 ≤ aD → aD < 1 →
        r.outcome.accepted = true ∧ DrawKind.accept ∈ r.consumed) := by
  by_cases hacc : stepDelta h L sD fD dD < 0 ∨
      (aD : ℝ) < Real.exp (-(stepDelta h L sD fD dD : ℝ) / (h.t : ℝ))
  · refine ⟨_, step_accept h L sD fD dD aD hL hne htgt hacc, ?_, fun _ => rfl, ?_⟩
    · simpa using hacc
    · intro hd0 _ _
      refine ⟨rfl, ?_⟩
      show DrawKind.accept ∈ proposalDraws ++
        if stepDelta h L sD fD dD < 0 then [] else [DrawKind.accept]
      rw [if_neg (by rw [hd0]; norm_num : ¬stepDelta h L sD fD dD < 0)]
      simp [proposalDraws]
  · refine ⟨_, step_reject h L sD fD dD aD hL hne htgt hacc, ?_, ?_, ?_⟩
    · simpa using hacc
    · intro hd
      exact absurd (Or.inl hd) hacc
    · intro hd0 h0 h1
      exfalso
      apply hacc
      right
      rw [hd0]
      push_cast
      rw [neg_zero, zero_div, Real.exp_zero]
      exact_mod_cast h1

/-- Witness for C3 at a concrete antiferromagnetic proposal. -/
theorem C3_witness :
    ∃ r, simulate_step hAF 0 1 2 0 = some r ∧
      (r.outcome.accepted = true ↔ stepDelta hAF (afLattice 2) 0 1 2 < 0 ∨
        ((0 : ℚ) : ℝ) < Real.exp (-(stepDelta hAF (afLattice 2) 0 1 2 : ℝ) / (hAF.t : ℝ))) ∧
      (stepDelta hAF (afLattice 2) 0 1 2 < 0 → r.outcome.accepted = true) ∧
      (stepDelta hAF (afLattice 2) 0 1 2 = 0 → 0 ≤ (0 : ℚ) → (0 : ℚ) < 1 →
        r.outcome.accepted = true ∧ DrawKind.accept ∈ r.consumed) :=
  C3_metropolis_rule hAF (afLattice 2) 0 1 2 0 rfl (by decide) (by decide)

/-- C4: every non-accepted step (exclusion rejection, Metropolis rejection,
or the empty-lattice early return) leaves the state exactly unchanged and
reports `accepted = false`; the exclusion rejection additionally performs
no energy evaluation and consumes no acceptance draw. -/
theorem C4_rejection_frame (h : Hubbard) (L : Grid) (sD : ℕ) (fD : ℚ) (dD : ℕ) (aD : ℚ)
    (r : StepResult) (hL : h.lattice = some L)
    (heq : simulate_step h sD fD dD aD = some r) :
    (r.outcome.accepted = false → r.state = h) ∧
      (occupiedSites L h.size ≠ [] →
        L ((propose h L sD fD dD).spin, (propose h L sD fD dD).tx,
          (propose h L sD fD dD).ty) = 1 →
        r.outcome.accepted = false ∧ r.state = h ∧ r.energyEvals = 0 ∧
          r.consumed = proposalDraws) := by
  by_cases he : occupiedSites L h.size = []
  · rw [step_empty h L sD fD dD aD hL he] at heq
    obtain rfl := Option.some.inj heq
    exact ⟨fun _ => rfl, fun hne _ => absurd he hne⟩
  · by_cases hx : L ((propose h L sD fD dD).spin, (propose h L sD fD dD).tx,
      (propose h L sD fD dD).ty) = 1
    · rw [step_excl h L sD fD dD aD hL he hx] at heq
      obtain rfl := Option.some.inj heq
      exact ⟨fun _ => rfl, fun _ _ => ⟨rfl, rfl, rfl, rfl⟩⟩
    · by_cases hacc : stepDelta h L sD fD dD < 0 ∨
        (aD : ℝ) < Real.exp (-(stepDelta h L sD fD dD : ℝ) / (h.t : ℝ))
      · rw [step_accept h L sD fD dD aD hL he hx hacc] at heq
        obtain rfl := Option.some.inj heq
        exact ⟨fun hfalse => Bool.noConfusion hfalse, fun _ hx' => absurd hx' hx⟩
      · rw [step_reject h L sD fD dD aD hL he hx hacc] at heq
        obtain rfl := Option.some.inj heq
        exact ⟨fun _ => rfl, fun _ hx' => absurd hx' hx⟩

/-- Witness for C4: a concrete exclusion-rejected step on the localized
engine changes nothing and evaluates no energy. -/
theorem C4_witness :
    ∃ r, simulate_step hLOC 0 1 0 0 = some r ∧ r.outcome.accepted = false ∧
      r.state = hLOC ∧ r.energyEvals = 0 ∧ r.consumed = proposalDraws := by
  have heq := step_excl hLOC (localizedLattice 2) 0 1 0 0 rfl (by decide) (by decide)
  obtain ⟨h1, h2⟩ := C4_rejection_frame hLOC (localizedLattice 2) 0 1 0 0 _ rfl heq
  obtain ⟨a, b, c, d⟩ := h2 (by decide) (by decide)
  exact ⟨_, heq, a, b, c, d⟩

/-- C5: whenever the random initializer returns, the number of occupied
cells is exactly `min(requested_electrons, 2 * N^2)`, for any in-range draw
sequence that lets the placement loop finish. -/
theorem C5_random_init_count (h0 : Hubbard) (draws : List (ℕ × ℕ × ℕ)) (h' : Hubbard)
    (L : Grid)
    (hv : ∀ d ∈ draws, d.1 < h0.size ∧ d.2.1 < h0.size ∧ d.2.2 < 2)
    (heq : initialize_lattice h0 draws = some h') (hL : h'.lattice = some L) :
    occupiedCount L h0.size = min h0.num_electrons (2 * h0.size ^ 2) :=
  (initialize_lattice_spec h0 draws h' hv heq).2.2 L hL

/-- Witness for C5: one draw fills a 1-by-1 lattice up to `min 1 2 = 1`. -/
theorem C5_witness :
    occupiedCount (setCell (fun _ => 0) 0 0 0 1) (mkHubbard 1 1 1 1).size =
      min (mkHubbard 1 1 1 1).num_electrons (2 * (mkHubbard 1 1 1 1).size ^ 2) :=
  C5_random_init_count (mkHubbard 1 1 1 1) [(0, 0, 0)] _ _ (by decide) rfl rfl

/-- C7: the antiferromagnetic initializer on an odd-sized engine reports
the configuration error and leaves every field of the engine unchanged; in
particular a previously uninitialized engine stays uninitialized. -/
theorem C7_af_odd_unchanged (h : Hubbard) (hodd : h.size % 2 ≠ 0) :
    (initialize_af h).1 = h ∧ (initialize_af h).2 = true ∧
      (initialize_af h).1.lattice = h.lattice := by
  unfold initialize_af
  rw [if_pos hodd]
  exact ⟨rfl, rfl, rfl⟩

/-- Witness for C7 on a size-3 engine. -/
theorem C7_witness :
    (initialize_af (mkHubbard 3 1 1 5)).1 = mkHubbard 3 1 1 5 ∧
      (initialize_af (mkHubbard 3 1 1 5)).2 = true ∧
      (initialize_af (mkHubbard 3 1 1 5)).1.lattice = (mkHubbard 3 1 1 5).lattice :=
  C7_af_odd_unchanged (mkHubbard 3 1 1 5) (by decide)

/-- C9: on a lattice with zero occupied cells, `simulate_step` returns an
outcome with `accepted = false` and null source, spin and target, raising
no error and consuming no draw. -/
theorem C9_empty_lattice (h : Hubbard) (L : Grid) (sD : ℕ) (fD : ℚ) (dD : ℕ) (aD : ℚ)
    (hL : h.lattice = some L) (hempty : occupiedSites L h.size = []) :
    simulate_step h sD fD dD aD = some ⟨⟨false, none, none, none⟩, h, [], 0⟩ :=
  step_empty h L sD fD dD aD hL hempty

/-- Witness for C9 on a concrete electron-free engine. -/
theorem C9_witness :
    simulate_step hEMP 0 0 0 0 = some ⟨⟨false, none, none, none⟩, hEMP, [], 0⟩ :=
  C9_empty_lattice hEMP (fun _ => 0) 0 0 0 0 rfl (by decide)

/-- C6 (amended): every step on a non-empty lattice makes the site-index,
field-bias and direction-choice calls, in that order; the acceptance draw
is made fourth exactly when the same-spin target is empty and
`delta_energy >= 0` — short-circuiting skips it when `delta_energy < 0`,
and the exclusion rejection returns before it. -/
theorem C6_rng_draw_order (h : Hubbard) (L : Grid) (sD : ℕ) (fD : ℚ) (dD : ℕ) (aD : ℚ)
    (r : StepResult) (hL : h.lattice = some L)
    (hne : occupiedSites L h.size ≠ [])
    (heq : simulate_step h sD fD dD aD = some r) :
    (r.consumed = proposalDraws ∨
      r.consumed = proposalDraws ++ [DrawKind.accept]) ∧
      (r.consumed = proposalDraws ++ [DrawKind.accept] ↔
        L ((propose h L sD fD dD).spin, (propose h L sD fD dD).tx,
          (propose h L sD fD dD).ty) ≠ 1 ∧ 0 ≤ stepDelta h L sD fD dD) := by
  by_cases hx : L ((propose h L sD fD dD).spin, (propose h L sD fD dD).tx,
      (propose h L sD fD dD).ty) = 1
  · rw [step_excl h L sD fD dD aD hL hne hx] at heq
    obtain rfl := Option.some.inj heq
    dsimp only
    refine ⟨Or.inl rfl, ?_⟩
    constructor
    · intro hc
      exact absurd hc (by decide)
    · rintro ⟨hc, -⟩
      exact absurd hx hc
  · by_cases hd : stepDelta h L sD fD dD < 0
    · rw [step_accept h L sD fD dD aD hL hne hx (Or.inl hd)] at heq
      obtain rfl := Option.some.inj heq
      dsimp only
      rw [if_pos hd, List.append_nil]
      refine ⟨Or.inl rfl, ?_⟩
      constructor
      · intro hc
        exact absurd hc (by decide)
      · rintro ⟨-, hd0⟩
        exact absurd hd (not_lt.mpr hd0)
    · by_cases hacc : stepDelta h L sD fD dD < 0 ∨
        (aD : ℝ) < Real.exp (-(stepDelta h L sD fD dD : ℝ) / (h.t : ℝ))
      · rw [step_accept h L sD fD dD aD hL hne hx hacc] at heq
        obtain rfl := Option.some.inj heq
        dsimp only
        rw [if_neg hd]
        exact ⟨Or.inr rfl, iff_of_true rfl ⟨hx, not_lt.mp hd⟩⟩
      · rw [step_reject h L sD fD dD aD hL hne hx hacc] at heq
        obtain rfl := Option.some.inj heq
        dsimp only
        exact ⟨Or.inr rfl, iff_of_true rfl ⟨hx, not_lt.mp hd⟩⟩

/-- Witness for the amended C6: a concrete exclusion-rejected step makes
exactly the three proposal draws. -/
theorem C6_witness :
    ∃ r, simulate_step hLOC 0 1 0 0 = some r ∧
      (r.consumed = proposalDraws ∨
        r.consumed = proposalDraws ++ [DrawKind.accept]) := by
  have heq := step_excl hLOC (localizedLattice 2) 0 1 0 0 rfl (by decide) (by decide)
  exact ⟨_, heq,
    (C6_rng_draw_order hLOC (localizedLattice 2) 0 1 0 0 _ rfl (by decide) heq).1⟩

/-- C6 is false as stated: on the 2-by-2 antiferromagnetic lattice, the
step below proposes a move with empty target and `delta_energy = 1 > 0`,
so it makes four random calls — site index, field bias, direction choice,
acceptance — not three, and a field-bias draw the claim does not mention
sits between the site draw and the direction draw. -/
theorem C6_counterexample :
    occupiedSites (afLattice 2) hAF.size ≠ [] ∧
      ∃ r, simulate_step hAF 0 1 2 0 = some r ∧
        r.consumed = [DrawKind.siteIdx, DrawKind.fieldBias, DrawKind.dirChoice,
          DrawKind.accept] ∧
        r.consumed.length ≠ 3 := by
  refine ⟨by decide, ?_⟩
  have hd : stepDelta hAF (afLattice 2) 0 1 2 = 1 := by
    unfold stepDelta
    rw [show propose hAF (afLattice 2) 0 1 2 = ⟨0, 0, 0, 1, 0⟩ from by decide]
    norm_num [deltaE, afLattice, show hAF.u = 1 from rfl]
  have hnd : ¬stepDelta hAF (afLattice 2) 0 1 2 < 0 := by
    rw [hd]
    norm_num
  by_cases hacc : stepDelta hAF (afLattice 2) 0 1 2 < 0 ∨
      ((0 : ℚ) : ℝ) < Real.exp (-(stepDelta hAF (afLattice 2) 0 1 2 : ℝ) / (hAF.t : ℝ))
  · refine ⟨_, step_accept hAF (afLattice 2) 0 1 2 0 rfl (by decide) (by decide) hacc,
      ?_, ?_⟩
    · show proposalDraws ++
          (if stepDelta hAF (afLattice 2) 0 1 2 < 0 then ([] : List DrawKind)
           else [DrawKind.accept]) =
        [DrawKind.siteIdx, DrawKind.fieldBias, DrawKind.dirChoice, DrawKind.accept]
      rw [if_neg hnd]
      rfl
    · show (proposalDraws ++
          (if stepDelta hAF (afLattice 2) 0 1 2 < 0 then ([] : List DrawKind)
           else [DrawKind.accept])).length ≠ 3
      rw [if_neg hnd]
      decide
  · exact ⟨_, step_reject hAF (afLattice 2) 0 1 2 0 rfl (by decide) (by decide) hacc,
      rfl, by decide⟩

theorem stepInProc_fst (R : RNGModel) (h : Hubbard) (p : Proc) :
    (stepInProc R h p).1 =
      simulate_step h (R.npInt p.npSeed p.npPos) (R.pyReal p.pySeed p.pyPos)
        (R.pyChoice p.pySeed (p.pyPos + 1)) (R.pyReal p.pySeed (p.pyPos + 2)) := by
  unfold stepInProc
  cases simulate_step h (R.npInt p.npSeed p.npPos) (R.pyReal p.pySeed p.pyPos)
      (R.pyChoice p.pySeed (p.pyPos + 1)) (R.pyReal p.pySeed (p.pyPos + 2)) <;> rfl

/-- C8 (amended): `Hubbard.__init__` reseeds the process-global `random`
and `np.random` generators, so engines share that mutable state: right
after a second engine is created, the process RNG state is the second
seed's fresh state whatever the prior state was, and any engine's next
step draws from the second engine's stream. -/
theorem C8_engines_share_global_rng (R : RNGModel) (size : ℕ) (u t : ℚ)
    (k seed2 : ℕ) (p : Proc) (h1 : Hubbard) :
    (newHubbard size u t k seed2 p).2 = seedGlobals seed2 ⟨0, 0, 0, 0⟩ ∧
      stepInProc R h1 (newHubbard size u t k seed2 p).2 =
        stepInProc R h1 (seedGlobals seed2 ⟨0, 0, 0, 0⟩) :=
  ⟨rfl, rfl⟩

/-- C8 is false as stated: with the concrete generator model `Rcx`,
stepping the antiferromagnetic engine right after its own creation (seed 0)
picks source (0, 0), but if an engine with seed 5 is created first, the
same step on the same first engine picks source (1, 1): creating the
second engine altered the first engine's draw sequence and outcome. -/
theorem C8_counterexample :
    ∃ rA rB,
      (stepInProc Rcx hAF (newHubbard 2 1 1 10 0 ⟨0, 0, 0, 0⟩).2).1 = some rA ∧
      (stepInProc Rcx hAF
        (newHubbard 2 1 1 10 5 (newHubbard 2 1 1 10 0 ⟨0, 0, 0, 0⟩).2).2).1 = some rB ∧
      rA.outcome.source = some (0, 0) ∧ rB.outcome.source = some (1, 1) ∧
      rA.outcome.source ≠ rB.outcome.source := by
  obtain ⟨rA, hA, hAs, -, -⟩ :=
    simulate_step_source hAF (afLattice 2) 0 0 2 0 rfl (by decide)
  obtain ⟨rB, hB, hBs, -, -⟩ :=
    simulate_step_source hAF (afLattice 2) 5 0 2 0 rfl (by decide)
  rw [show propose hAF (afLattice 2) 0 0 2 = ⟨0, 0, 0, 1, 0⟩ from by decide] at hAs
  rw [show propose hAF (afLattice 2) 5 0 2 = ⟨0, 1, 1, 0, 1⟩ from by decide] at hBs
  refine ⟨rA, rB, ?_, ?_, hAs, hBs, ?_⟩
  · rw [stepInProc_fst]
    simpa [Rcx] using hA
  · rw [stepInProc_fst]
    simpa [Rcx] using hB
  · rw [hAs, hBs]
    simp
